import Mathlib

/-!
Verification of the `LocalFilesystem` database backend of a turn-based game
server.  The backend persists each game's current state as a file
`{gameId}.json` in a database folder and every save as an immutable file
`{gameId}-{paddedSaveId}.json` in a history folder.

The filesystem is modelled as two association lists (database folder and
history folder) from file names to file contents.  Directory enumeration
order is list order.  Every modelled entry is a regular file; the real
directory scans skip non-file entries (such as the nested `history`
directory) via `dirent.isFile()`, so those entries are not modelled.
File contents are either the serialization of a game (JSON stringify and
parse are lossless on plain data) or text that does not parse as a game.
-/

set_option maxHeartbeats 1000000

namespace LocalFilesystem

/-- A serialized player; only the participant id is relevant to this layer. -/
structure Player where
  id : String
deriving DecidableEq

/-- The serialized form of one game's state, restricted to the fields the
persistence layer inspects. -/
structure SerializedGame where
  id : String
  lastSaveId : Nat
  players : List Player
  spectatorId : Option String
deriving DecidableEq

/-- Contents of a stored file: either a valid serialized game or text that
fails to parse as one. -/
inductive FileContent where
  | game (g : SerializedGame)
  | corrupt (text : String)
deriving DecidableEq

/-- Errors surfaced by the backend: a missing file (`ENOENT` from
`readFileSync`, `copyFileSync` or `unlinkSync`), a JSON parse failure, a
failed write, or a generic `new Error(message)`. -/
inductive JsError where
  | enoent (path : String)
  | parseFail (text : String)
  | ioFail (path : String)
  | error (msg : String)
deriving DecidableEq

/-- One entry of the participant index: a game id together with the ordered
participant ids of that game. -/
structure GameIdLedger where
  gameId : String
  participantIds : List String
deriving DecidableEq

/-- The filesystem state: the database folder and the history folder, each a
finite map from file name to content in directory-enumeration order. -/
structure FS where
  db : List (String × FileContent)
  history : List (String × FileContent)
deriving DecidableEq

/-- The live `Game` object as far as this layer sees it.  Modelled from the
spec: the `Game` class lives outside this repository fragment; the spec
requires its serialization to carry the game's own `id` and `lastSaveId`. -/
structure Game where
  id : String
  lastSaveId : Nat
  players : List Player
  spectatorId : Option String
deriving DecidableEq

/-- Modelled from the spec: `Game.serialize` (external to the fragment)
produces the full snapshot, whose `id` and `lastSaveId` fields equal the
game's. -/
def Game.serialize (g : Game) : SerializedGame :=
  ⟨g.id, g.lastSaveId, g.players, g.spectatorId⟩

/-! ### String helpers mirroring the JavaScript primitives used in the code -/

/-- JavaScript `String.prototype.startsWith`. -/
def jsStartsWith (s pre : String) : Bool :=
  pre.data.isPrefixOf s.data

/-- JavaScript `String.prototype.padStart(5, '0')`. -/
def padStart5 (s : String) : String :=
  if 5 ≤ s.length then s else ⟨List.replicate (5 - s.length) '0' ++ s.data⟩

/-- Numeric value of a list of decimal digit characters, most significant
first (the accumulator fold JavaScript's `Number` performs on a digit
string). -/
def charsVal (l : List Char) : Nat :=
  l.foldl (fun a c => 10 * a + (c.toNat - 48)) 0

/-- JavaScript `Number(string)`, restricted to the strings this backend
produces: the empty string converts to `0`, a string of decimal digits to
its value, and anything else to `NaN` (modelled as `none`). -/
def jsNumber (s : String) : Option Nat :=
  if s.data = [] then some 0
  else if s.data.all Char.isDigit then some (charsVal s.data)
  else none

/-- Positions in `l` at which the four characters `json` occur. -/
def jsonPositions (l : List Char) : List Nat :=
  (List.range l.length).filter fun j =>
    decide ((l.drop j).take 4 = ['j', 's', 'o', 'n'])

/-- Largest element of a list of naturals. -/
def maxN : List Nat → Option Nat
  | [] => none
  | x :: xs =>
    match maxN xs with
    | none => some x
    | some m => some (max x m)

/-- Positions of a `-` in `l` from which the tail of the pattern
`-(.*).json` can still match: some occurrence of `json` lies at least two
characters further right. -/
def feasibleDashes (l : List Char) : List Nat :=
  (List.range l.length).filter fun i =>
    decide (l.get? i = some '-') &&
      (jsonPositions l).any (fun j => decide (i + 2 ≤ j))

/-- JavaScript `name.match(/(.*)-(.*).json/)`, returning capture groups 1
and 2.  Both `.*` are greedy, so group 1 extends to the rightmost viable
`-` and group 2 to the rightmost viable `json`.  File names contain no
newline, so `.` matches any character and a successful match starts at
index 0. -/
def jsMatch2 (s : String) : Option (String × String) :=
  match maxN (feasibleDashes s.data) with
  | none => none
  | some i =>
    match maxN ((jsonPositions s.data).filter fun j => decide (i + 2 ≤ j)) with
    | none => none
    | some j => some (⟨s.data.take i⟩, ⟨(s.data.drop (i + 1)).take (j - i - 2)⟩)

/-- JavaScript `name.match(/(.*).json/)`, returning capture group 1.  The
greedy `.*` extends to the rightmost `json` preceded by at least one
character. -/
def jsMatch1 (s : String) : Option String :=
  match maxN ((jsonPositions s.data).filter fun j => decide (1 ≤ j)) with
  | none => none
  | some j => some ⟨s.data.take (j - 1)⟩

/-! ### Association-list primitives for one directory -/

/-- Read the contents of file `p`, if present (`readFileSync`). -/
def lookupFile (l : List (String × FileContent)) (p : String) : Option FileContent :=
  (l.find? fun e => e.1 == p).map Prod.snd

/-- Write contents `c` to file `p`, replacing the previous contents or
creating the file (`writeFileSync`). -/
def writeFile (l : List (String × FileContent)) (p : String) (c : FileContent) :
    List (String × FileContent) :=
  if l.any (fun e => e.1 == p) then
    l.map fun e => if e.1 == p then (p, c) else e
  else l ++ [(p, c)]

/-- Remove file `p` (`unlinkSync` on an existing file). -/
def removeFile (l : List (String × FileContent)) (p : String) :
    List (String × FileContent) :=
  l.eraseP fun e => e.1 == p

/-! ### Path resolution -/

/-- `filename(gameId)`: name of the current-state file, relative to the
database folder. -/
def filename (gameId : String) : String :=
  gameId ++ ".json"

/-- `historyFilename(gameId, saveId)` for a JavaScript number that is either
a natural (`some n`) or `NaN` (`none`, which stringifies to `"NaN"`),
relative to the history folder. -/
def historyFilenameN (gameId : String) (saveId : Option Nat) : String :=
  gameId ++ "-" ++ padStart5 (match saveId with
                              | some n => Nat.repr n
                              | none => "NaN") ++ ".json"

/-- `historyFilename(gameId, saveId)`: name of the history file of one save,
relative to the history folder. -/
def historyFilename (gameId : String) (saveId : Nat) : String :=
  historyFilenameN gameId (some saveId)

/-! ### Operations -/

/-- Oracle for the fallible effects of a save: whether `game.serialize()`
returns normally and which paths `writeFileSync` can write. -/
structure IOOracle where
  serializeOk : Bool
  writeOk : String → Bool

/-- The oracle under which every effect succeeds (normal operation). -/
def okOracle : IOOracle :=
  ⟨true, fun _ => true⟩

/-- `saveSerializedGame(serializedGame)`: writes the serialized text to the
current-state file and to the history file at the game's `lastSaveId`.
Returns the filesystem after the writes that ran, and the error of the
first failing write, if any. -/
def saveSerializedGame (o : IOOracle) (fs : FS) (sg : SerializedGame) :
    FS × Option JsError :=
  if o.writeOk (filename sg.id) then
    let fs1 : FS := { fs with db := writeFile fs.db (filename sg.id) (.game sg) }
    if o.writeOk (historyFilename sg.id sg.lastSaveId) then
      ({ fs1 with
          history := writeFile fs1.history (historyFilename sg.id sg.lastSaveId) (.game sg) },
       none)
    else (fs1, some (.ioFail (historyFilename sg.id sg.lastSaveId)))
  else (fs, some (.ioFail (filename sg.id)))

/-- `saveGame(game)`: serializes the game, stores it via
`saveSerializedGame`, then increments `game.lastSaveId` on the caller's
object.  An exception from serialization or from either write propagates
before the increment runs, leaving the caller's object untouched. -/
def saveGame (o : IOOracle) (fs : FS) (g : Game) : (FS × Game) × Option JsError :=
  if o.serializeOk then
    match saveSerializedGame o fs (Game.serialize g) with
    | (fs', none) => ((fs', { g with lastSaveId := g.lastSaveId + 1 }), none)
    | (fs', some e) => ((fs', g), some e)
  else ((fs, g), some (.error "serialize threw"))

/-- `getGame(gameId)`: reads and parses the current-state file, propagating
the read or parse error. -/
def getGame (fs : FS) (gameId : String) : Except JsError SerializedGame :=
  match lookupFile fs.db (filename gameId) with
  | none => .error (.enoent (filename gameId))
  | some (.corrupt t) => .error (.parseFail t)
  | some (.game gm) => .ok gm

/-- `getSaveIds(gameId)`: scans the history folder; every file whose name
starts with `gameId + "-"` and matches `/(.*)-(.*).json/` contributes
`Number(group2)` (possibly `NaN`, modelled as `none`). -/
def getSaveIds (fs : FS) (gameId : String) : List (Option Nat) :=
  fs.history.filterMap fun e =>
    if jsStartsWith e.1 (gameId ++ "-") then
      match jsMatch2 e.1 with
      | some m => some (jsNumber m.2)
      | none => none
    else none

/-- `getGameVersion(gameId, saveId)`: reads and parses one history file; any
failure is caught and rejected as `Game {gameId} not found at save_id
{saveId}`. -/
def getGameVersion (fs : FS) (gameId : String) (saveId : Nat) :
    Except JsError SerializedGame :=
  match lookupFile fs.history (historyFilename gameId saveId) with
  | some (.game gm) => .ok gm
  | _ => .error (.error ("Game " ++ gameId ++ " not found at save_id " ++ Nat.repr saveId))

/-- `loadCloneableGame(gameId)`: the history entry at save id 0. -/
def loadCloneableGame (fs : FS) (gameId : String) : Except JsError SerializedGame :=
  getGameVersion fs gameId 0

/-- `asGameId(dirent)`: a database-folder file name yields a game id when it
matches `/(.*).json/` and group 1 passes the game-id recognizer `isG`
(defined outside the fragment and taken as a parameter). -/
def asGameId (isG : String → Bool) (name : String) : Option String :=
  match jsMatch1 name with
  | none => none
  | some r => if isG r then some r else none

/-- `getGameIds()`: all database-folder file names recognized as game ids,
in directory order. -/
def getGameIds (isG : String → Bool) (fs : FS) : List String :=
  fs.db.filterMap fun e => asGameId isG e.1

/-- `getPlayerCount(gameId)`: requires `gameId` to be listed by
`getGameIds` **and** its save-id-0 history file to exist, then returns the
length of the player list parsed from that history file. -/
def getPlayerCount (isG : String → Bool) (fs : FS) (gameId : String) :
    Except JsError Nat :=
  match (getGameIds isG fs).find? (fun gId =>
      gId == gameId && (lookupFile fs.history (historyFilename gameId 0)).isSome) with
  | none => .error (.error (gameId ++ " not found"))
  | some _ =>
    match lookupFile fs.history (historyFilename gameId 0) with
    | none => .error (.enoent (historyFilename gameId 0))
    | some (.corrupt t) => .error (.parseFail t)
    | some (.game gm) => .ok gm.players.length

/-- `restoreGame(gameId, saveId)`: copies the history file over the
current-state file (`copyFileSync`, which raises `ENOENT` when the source
is missing), then returns `getGame(gameId)`.  The first component is the
filesystem after the call. -/
def restoreGame (fs : FS) (gameId : String) (saveId : Nat) :
    FS × Except JsError SerializedGame :=
  match lookupFile fs.history (historyFilename gameId saveId) with
  | none => (fs, .error (.enoent (historyFilename gameId saveId)))
  | some c =>
    let fs' : FS := { fs with db := writeFile fs.db (filename gameId) c }
    (fs', getGame fs' gameId)

/-- `deleteVersion(gameId, version)` via `unlinkSync`: removes one history
file, raising `ENOENT` when it is absent. -/
def deleteVersion (fs : FS) (gameId : String) (version : Option Nat) :
    FS × Option JsError :=
  if (lookupFile fs.history (historyFilenameN gameId version)).isSome then
    ({ fs with history := removeFile fs.history (historyFilenameN gameId version) }, none)
  else (fs, some (.enoent (historyFilenameN gameId version)))

/-- The deletion loop of `deleteGameNbrSaves`: deletes versions in order,
stopping at the first error and keeping the deletions already made. -/
def deleteVersions (fs : FS) (gameId : String) : List (Option Nat) → FS × Option JsError
  | [] => (fs, none)
  | v :: rest =>
    match deleteVersion fs gameId v with
    | (fs', none) => deleteVersions fs' gameId rest
    | (fs', some e) => (fs', some e)

/-- `deleteGameNbrSaves(gameId, rollbackCount)`: a non-positive count is a
logged no-op; otherwise the last `rollbackCount` entries of
`getSaveIds(gameId)` (JavaScript `slice(-rollbackCount)`) are deleted. -/
def deleteGameNbrSaves (fs : FS) (gameId : String) (rollbackCount : Int) :
    FS × Option JsError :=
  if rollbackCount ≤ 0 then (fs, none)
  else
    let saveIds := getSaveIds fs gameId
    deleteVersions fs gameId (saveIds.drop (saveIds.length - rollbackCount.toNat))

/-- The loop body sequence of `getParticipants`: walks the database-folder
entries; each recognized game id has its current-state file read and
parsed (any failure aborts the whole call), producing a ledger entry of
the player ids followed by the spectator id when that is truthy. -/
def participantsGo (isG : String → Bool) (fs : FS) :
    List (String × FileContent) → Except JsError (List GameIdLedger)
  | [] => .ok []
  | e :: rest =>
    match asGameId isG e.1 with
    | none => participantsGo isG fs rest
    | some gid =>
      match lookupFile fs.db (filename gid) with
      | none => .error (.enoent (filename gid))
      | some (.corrupt t) => .error (.parseFail t)
      | some (.game gm) =>
        match participantsGo isG fs rest with
        | .error err => .error err
        | .ok acc =>
          .ok (⟨gid, gm.players.map Player.id ++
                  (match gm.spectatorId with
                   | some sid => if sid = "" then [] else [sid]
                   | none => [])⟩ :: acc)

/-- `getParticipants()`: one ledger entry per recognized current-state file,
in directory order. -/
def getParticipants (isG : String → Bool) (fs : FS) :
    Except JsError (List GameIdLedger) :=
  participantsGo isG fs fs.db

/-- `getGameId(participantId)`: the game id of the first participant entry
containing the id; fails with `participant id {id} not found` otherwise. -/
def getGameId (isG : String → Bool) (fs : FS) (pid : String) : Except JsError String :=
  match getParticipants isG fs with
  | .error e => .error e
  | .ok entries =>
    match entries.find? (fun entry => entry.participantIds.contains pid) with
    | some entry => .ok entry.gameId
    | none => .error (.error ("participant id " ++ pid ++ " not found"))

/-! ### Association-list lemmas -/

@[simp] theorem lookupFile_nil (p : String) :
    lookupFile [] p = none := rfl

theorem lookupFile_cons_pos {e : String × FileContent} (l : List (String × FileContent))
    {q : String} (h : (e.1 == q) = true) :
    lookupFile (e :: l) q = some e.2 := by
  simp only [lookupFile, List.find?_cons]
  rw [h]
  rfl

theorem lookupFile_cons_neg {e : String × FileContent} (l : List (String × FileContent))
    {q : String} (h : ¬(e.1 == q) = true) :
    lookupFile (e :: l) q = lookupFile l q := by
  simp only [lookupFile, List.find?_cons]
  rw [Bool.eq_false_iff.mpr h]

theorem lookupFile_eq_none {l : List (String × FileContent)} {p : String} :
    lookupFile l p = none ↔ p ∉ l.map Prod.fst := by
  induction l with
  | nil => simp
  | cons e rest ih =>
    by_cases h : (e.1 == p) = true
    · have := eq_of_beq h
      rw [lookupFile_cons_pos rest h]
      simp [this]
    · have hne : e.1 ≠ p := fun hh => h (by simp [hh])
      rw [lookupFile_cons_neg rest h]
      simp [ih, hne, Ne.symm hne]

theorem mem_of_lookupFile {l : List (String × FileContent)} {p : String}
    {c : FileContent} (h : lookupFile l p = some c) : (p, c) ∈ l := by
  induction l with
  | nil => simp at h
  | cons e rest ih =>
    by_cases hb : (e.1 == p) = true
    · rw [lookupFile_cons_pos rest hb] at h
      have h1 := eq_of_beq hb
      have h2 : e.2 = c := by injection h
      obtain ⟨e1, e2⟩ := e
      simp only at h1 h2
      subst h1
      subst h2
      exact List.mem_cons_self _ _
    · rw [lookupFile_cons_neg rest hb] at h
      exact List.mem_cons_of_mem _ (ih h)

theorem lookupFile_of_mem {l : List (String × FileContent)} {p : String}
    {c : FileContent} (hnd : (l.map Prod.fst).Nodup) (h : (p, c) ∈ l) :
    lookupFile l p = some c := by
  induction l with
  | nil => cases h
  | cons e rest ih =>
    simp only [List.map_cons, List.nodup_cons] at hnd
    rcases List.mem_cons.mp h with heq | hrest
    · subst heq
      rw [lookupFile_cons_pos rest (by simp)]
    · have hne : ¬(e.1 == p) = true := by
        intro hbeq
        exact hnd.1 (eq_of_beq hbeq ▸ List.mem_map.mpr ⟨(p, c), hrest, rfl⟩)
      rw [lookupFile_cons_neg rest hne]
      exact ih hnd.2 hrest

theorem lookupFile_map_overwrite (l : List (String × FileContent)) (p : String)
    (c : FileContent) (hany : l.any (fun e => e.1 == p)) :
    lookupFile (l.map fun e => if e.1 == p then (p, c) else e) p = some c := by
  induction l with
  | nil => simp at hany
  | cons e rest ih =>
    rw [List.map_cons]
    by_cases hbeq : (e.1 == p) = true
    · rw [if_pos hbeq, lookupFile_cons_pos _ (by simp)]
    · have hany' : rest.any (fun e => e.1 == p) := by
        simpa [List.any_cons, hbeq] using hany
      rw [if_neg hbeq, lookupFile_cons_neg _ hbeq]
      exact ih hany'

theorem lookupFile_map_overwrite_ne (l : List (String × FileContent)) {p q : String}
    (c : FileContent) (hne : q ≠ p) :
    lookupFile (l.map fun e => if e.1 == p then (p, c) else e) q = lookupFile l q := by
  induction l with
  | nil => rfl
  | cons e rest ih =>
    rw [List.map_cons]
    by_cases hbeq : (e.1 == p) = true
    · have hq : ¬((p, c).1 == q) = true := fun h => hne (eq_of_beq h).symm
      have hq' : ¬(e.1 == q) = true := fun h =>
        hne ((eq_of_beq hbeq) ▸ (eq_of_beq h)).symm
      rw [if_pos hbeq, lookupFile_cons_neg _ hq, lookupFile_cons_neg _ hq']
      exact ih
    · rw [if_neg hbeq]
      by_cases hq' : (e.1 == q) = true
      · rw [lookupFile_cons_pos _ hq', lookupFile_cons_pos _ hq']
      · rw [lookupFile_cons_neg _ hq', lookupFile_cons_neg _ hq']
        exact ih

theorem lookupFile_append_single (l : List (String × FileContent)) (p : String)
    (c : FileContent) (hnone : ¬l.any (fun e => e.1 == p)) :
    lookupFile (l ++ [(p, c)]) p = some c := by
  induction l with
  | nil => rw [List.nil_append, lookupFile_cons_pos _ (by simp)]
  | cons e rest ih =>
    have hbeq : ¬(e.1 == p) = true := fun h => hnone (by simp [List.any_cons, h])
    have hrest : ¬rest.any (fun e => e.1 == p) := fun h =>
      hnone (by simp [List.any_cons, h])
    rw [List.cons_append, lookupFile_cons_neg _ hbeq]
    exact ih hrest

theorem lookupFile_append_single_ne (l : List (String × FileContent)) {p q : String}
    (c : FileContent) (hne : q ≠ p) :
    lookupFile (l ++ [(p, c)]) q = lookupFile l q := by
  induction l with
  | nil =>
    have h : ¬((p, c).1 == q) = true := fun h => hne (eq_of_beq h).symm
    rw [List.nil_append, lookupFile_cons_neg _ h]
  | cons e rest ih =>
    by_cases hq : (e.1 == q) = true
    · rw [List.cons_append, lookupFile_cons_pos _ hq, lookupFile_cons_pos _ hq]
    · rw [List.cons_append, lookupFile_cons_neg _ hq, lookupFile_cons_neg _ hq]
      exact ih

theorem lookupFile_writeFile_same (l : List (String × FileContent)) (p : String)
    (c : FileContent) : lookupFile (writeFile l p c) p = some c := by
  unfold writeFile
  by_cases hany : l.any (fun e => e.1 == p)
  · simpa [hany] using lookupFile_map_overwrite l p c hany
  · simpa [hany] using lookupFile_append_single l p c hany

theorem lookupFile_writeFile_ne (l : List (String × FileContent)) {p q : String}
    (c : FileContent) (hne : q ≠ p) :
    lookupFile (writeFile l p c) q = lookupFile l q := by
  unfold writeFile
  by_cases hany : l.any (fun e => e.1 == p)
  · simpa [hany] using lookupFile_map_overwrite_ne l c hne
  · simpa [hany] using lookupFile_append_single_ne l c hne

/-! ### Decimal representation of save ids -/

/-- The decimal digit values of `n`, most significant first. -/
def decDigits (n : Nat) : List Nat :=
  if n < 10 then [n] else decDigits (n / 10) ++ [n % 10]
decreasing_by exact Nat.div_lt_self (by omega) (by omega)

/-- Value of a digit-value list, most significant first. -/
def natVal (l : List Nat) : Nat :=
  l.foldl (fun a d => 10 * a + d) 0

theorem toDigitsCore_eq (fuel : Nat) :
    ∀ (n : Nat) (acc : List Char), n < fuel →
      Nat.toDigitsCore 10 fuel n acc = (decDigits n).map Nat.digitChar ++ acc := by
  induction fuel with
  | zero => intro n acc h; omega
  | succ f ih =>
    intro n acc h
    show (if n / 10 = 0 then Nat.digitChar (n % 10) :: acc
          else Nat.toDigitsCore 10 f (n / 10) (Nat.digitChar (n % 10) :: acc)) = _
    by_cases h10 : n / 10 = 0
    · have hn : n < 10 := by omega
      rw [if_pos h10, decDigits, if_pos hn, Nat.mod_eq_of_lt hn]
      rfl
    · have hn : ¬n < 10 := fun hlt => h10 (Nat.div_eq_of_lt hlt)
      have hf : n / 10 < f := by
        have h1 : n / 10 < n := Nat.div_lt_self (by omega) (by omega)
        omega
      rw [if_neg h10, ih (n / 10) _ hf]
      conv_rhs => rw [decDigits]
      rw [if_neg hn]
      simp

theorem repr_eq_decDigits (n : Nat) :
    Nat.repr n = ⟨(decDigits n).map Nat.digitChar⟩ := by
  show (Nat.toDigits 10 n).asString = _
  rw [Nat.toDigits, toDigitsCore_eq (n + 1) n [] (Nat.lt_succ_self n)]
  simp [List.asString]

theorem decDigits_le9 (n : Nat) : ∀ d ∈ decDigits n, d ≤ 9 := by
  induction n using Nat.strong_induction_on with
  | _ n ih =>
    intro d hd
    rw [decDigits] at hd
    by_cases h : n < 10
    · rw [if_pos h] at hd
      simp at hd
      omega
    · rw [if_neg h] at hd
      rcases List.mem_append.mp hd with h1 | h2
      · exact ih (n / 10) (Nat.div_lt_self (by omega) (by omega)) d h1
      · simp at h2
        omega

theorem decDigits_ne_nil (n : Nat) : decDigits n ≠ [] := by
  rw [decDigits]
  by_cases h : n < 10
  · simp [h]
  · simp [h]

theorem foldl_digits_shift (l : List Nat) :
    ∀ a : Nat, l.foldl (fun a d => 10 * a + d) a = a * 10 ^ l.length + natVal l := by
  induction l with
  | nil => intro a; simp [natVal]
  | cons d t ih =>
    intro a
    show t.foldl (fun a d => 10 * a + d) (10 * a + d) = _
    rw [ih (10 * a + d)]
    have hv : natVal (d :: t) = d * 10 ^ t.length + natVal t := by
      show t.foldl (fun a d => 10 * a + d) (10 * 0 + d) = _
      rw [ih (10 * 0 + d)]
      ring_nf
    rw [hv]
    simp [List.length_cons, Nat.pow_succ]
    ring

theorem natVal_cons (d : Nat) (t : List Nat) :
    natVal (d :: t) = d * 10 ^ t.length + natVal t := by
  show t.foldl (fun a d => 10 * a + d) (10 * 0 + d) = _
  rw [foldl_digits_shift t (10 * 0 + d)]
  ring_nf

theorem natVal_append_single (l : List Nat) (d : Nat) :
    natVal (l ++ [d]) = 10 * natVal l + d := by
  show (l ++ [d]).foldl (fun a d => 10 * a + d) 0 = _
  rw [List.foldl_append]
  rfl

theorem natVal_decDigits (n : Nat) : natVal (decDigits n) = n := by
  induction n using Nat.strong_induction_on with
  | _ n ih =>
    rw [decDigits]
    by_cases h : n < 10
    · rw [if_pos h]
      simp [natVal]
    · rw [if_neg h, natVal_append_single,
        ih (n / 10) (Nat.div_lt_self (by omega) (by omega))]
      omega

theorem natVal_replicate_zero (k : Nat) (l : List Nat) :
    natVal (List.replicate k 0 ++ l) = natVal l := by
  induction k with
  | zero => simp
  | succ m ih =>
    rw [List.replicate_succ, List.cons_append, natVal_cons]
    simpa using ih

theorem natVal_lt (l : List Nat) (h : ∀ d ∈ l, d ≤ 9) :
    natVal l < 10 ^ l.length := by
  induction l with
  | nil => simp [natVal]
  | cons d t ih =>
    rw [natVal_cons]
    have hd : d ≤ 9 := h d (by simp)
    have ht : natVal t < 10 ^ t.length := ih fun x hx => h x (by simp [hx])
    calc d * 10 ^ t.length + natVal t
        ≤ 9 * 10 ^ t.length + natVal t := by
          exact Nat.add_le_add_right (Nat.mul_le_mul_right _ hd) _
      _ < 9 * 10 ^ t.length + 10 ^ t.length := by omega
      _ = 10 ^ (d :: t).length := by
          simp [List.length_cons, Nat.pow_succ]
          ring

theorem decDigits_length_le (k n : Nat) (hk : 1 ≤ k) (h : n < 10 ^ k) :
    (decDigits n).length ≤ k := by
  induction k generalizing n with
  | zero => omega
  | succ m ih =>
    rw [decDigits]
    by_cases h10 : n < 10
    · rw [if_pos h10]
      simp only [List.length_cons, List.length_nil]
      omega
    · rw [if_neg h10]
      have hm : 1 ≤ m := by
        by_contra hm0
        have : m = 0 := by omega
        subst this
        simp at h
        omega
      have hdiv : n / 10 < 10 ^ m := by
        rw [Nat.div_lt_iff_lt_mul (by omega)]
        calc n < 10 ^ (m + 1) := h
          _ = 10 ^ m * 10 := by rw [Nat.pow_succ]
      have := ih hm (n := n / 10) hdiv
      simp [List.length_append]
      omega

theorem digitChar_inj {d e : Nat} (hd : d ≤ 9) (he : e ≤ 9)
    (h : Nat.digitChar d = Nat.digitChar e) : d = e := by
  interval_cases d <;> interval_cases e <;> first | rfl | (exfalso; exact absurd h (by decide))

theorem digitChar_lt {d e : Nat} (hlt : d < e) (he : e ≤ 9) :
    Nat.digitChar d < Nat.digitChar e := by
  have hd : d ≤ 8 := by omega
  interval_cases d <;> interval_cases e <;> decide

theorem digitChar_not_lt_self (d : Nat) :
    ¬Nat.digitChar d < Nat.digitChar d :=
  lt_irrefl _

theorem digitChar_isDigit {d : Nat} (hd : d ≤ 9) :
    (Nat.digitChar d).isDigit = true := by
  interval_cases d <;> decide

theorem isDigit_ne_dash {c : Char} (h : c.isDigit = true) : c ≠ '-' := by
  intro hc
  subst hc
  exact absurd h (by decide)

theorem isDigit_ne_j {c : Char} (h : c.isDigit = true) : c ≠ 'j' := by
  intro hc
  subst hc
  exact absurd h (by decide)


/-! ### Spec-side auxiliary definitions -/

/-- Whether a stored file's contents parse as a serialized game. -/
def isValidEntry : Option FileContent → Bool
  | some (.game _) => true
  | _ => false

/-- Modelled from the spec: the game-id recognizer `isGameId` lives outside
this fragment; the spec describes a `GameId` as an opaque string validated
by a recognizer predicate.  This concrete instance accepts non-empty
strings of letters and digits starting with `g`; theorems that depend on
the recognizer take it as a parameter instead. -/
def isGameIdM (s : String) : Bool :=
  match s.data with
  | [] => false
  | c :: _ => c == 'g' && s.data.all (fun ch => ch.isAlphanum)

/-! ### Claim theorems -/

/-- C1: `saveGame(g)` serializes `g`, overwrites the current snapshot file
for `g.id` with the serialized form, writes the same serialized form to
the history file at `(g.id, g.lastSaveId)`, succeeds, and increments
`g.lastSaveId` by exactly one on the caller's object. -/
theorem saveGame_writes_and_increments (fs : FS) (g : Game) :
    (saveGame okOracle fs g).2 = none ∧
    lookupFile (saveGame okOracle fs g).1.1.db (filename g.id) =
      some (.game (Game.serialize g)) ∧
    lookupFile (saveGame okOracle fs g).1.1.history
        (historyFilename g.id g.lastSaveId) =
      some (.game (Game.serialize g)) ∧
    (saveGame okOracle fs g).1.2 = { g with lastSaveId := g.lastSaveId + 1 } := by
  have hid : (Game.serialize g).id = g.id := rfl
  have hsv : (Game.serialize g).lastSaveId = g.lastSaveId := rfl
  unfold saveGame saveSerializedGame okOracle
  simp only [hid, hsv, if_true]
  exact ⟨trivial, lookupFile_writeFile_same _ _ _, lookupFile_writeFile_same _ _ _, trivial⟩

/-- C10: when serialization or either write of `saveGame` fails, the
caller's `lastSaveId` is unchanged; on success all three effects happened
and the counter is incremented by one. -/
theorem saveGame_failure_no_increment (o : IOOracle) (fs : FS) (g : Game) :
    ((saveGame o fs g).2.isSome = true → (saveGame o fs g).1.2 = g) ∧
    ((saveGame o fs g).2 = none →
      o.serializeOk = true ∧
      o.writeOk (filename g.id) = true ∧
      o.writeOk (historyFilename g.id g.lastSaveId) = true ∧
      (saveGame o fs g).1.2 = { g with lastSaveId := g.lastSaveId + 1 }) := by
  have hid : (Game.serialize g).id = g.id := rfl
  have hsv : (Game.serialize g).lastSaveId = g.lastSaveId := rfl
  unfold saveGame saveSerializedGame
  by_cases hs : o.serializeOk = true
  · by_cases h1 : o.writeOk (filename g.id) = true
    · by_cases h2 : o.writeOk (historyFilename g.id g.lastSaveId) = true
      · simp [hid, hsv, hs, h1, h2]
      · simp [hid, hsv, hs, h1, h2]
    · simp [hid, hsv, hs, h1]
  · simp [hs]

/-- C10 witness: a save whose history write fails leaves the caller's
`lastSaveId` at its old value. -/
theorem saveGame_failure_no_increment_witness :
    (saveGame ⟨true, fun p => !(p == "g1-00000.json")⟩ ⟨[], []⟩
        ⟨"g1", 0, [], none⟩).1.2 = ⟨"g1", 0, [], none⟩ :=
  (saveGame_failure_no_increment ⟨true, fun p => !(p == "g1-00000.json")⟩
    ⟨[], []⟩ ⟨"g1", 0, [], none⟩).1 (by decide)

/-- C8: a non-positive rollback count deletes nothing, changes no stored
state, and reports no error. -/
theorem deleteGameNbrSaves_nonpositive (fs : FS) (g : String) (n : Int)
    (h : n ≤ 0) : deleteGameNbrSaves fs g n = (fs, none) := by
  unfold deleteGameNbrSaves
  rw [if_pos h]

/-- C8 witness: rolling back `-2` saves is a successful no-op. -/
theorem deleteGameNbrSaves_nonpositive_witness :
    deleteGameNbrSaves ⟨[], [("g1-00000.json", .corrupt "x")]⟩ "g1" (-2) =
      (⟨[], [("g1-00000.json", .corrupt "x")]⟩, none) :=
  deleteGameNbrSaves_nonpositive _ _ _ (by decide)

/-- C3: `getGame(g)` fails with the file-not-found error when the
current-state file is absent, fails with the parse error when its content
is corrupt, and otherwise returns the deserialized current state. -/
theorem getGame_error_taxonomy (fs : FS) (g : String)
    (hnd : (fs.db.map Prod.fst).Nodup) :
    (filename g ∉ fs.db.map Prod.fst →
      getGame fs g = .error (.enoent (filename g))) ∧
    (∀ t, (filename g, FileContent.corrupt t) ∈ fs.db →
      getGame fs g = .error (.parseFail t)) ∧
    (∀ gm, (filename g, FileContent.game gm) ∈ fs.db →
      getGame fs g = .ok gm) := by
  refine ⟨fun h => ?_, fun t h => ?_, fun gm h => ?_⟩
  · unfold getGame
    rw [lookupFile_eq_none.mpr h]
  · unfold getGame
    rw [lookupFile_of_mem hnd h]
  · unfold getGame
    rw [lookupFile_of_mem hnd h]

/-- C3 witness: a corrupt current-state file surfaces as a parse failure. -/
theorem getGame_error_taxonomy_witness :
    getGame ⟨[("g1.json", .corrupt "oops")], []⟩ "g1" = .error (.parseFail "oops") :=
  (getGame_error_taxonomy ⟨[("g1.json", .corrupt "oops")], []⟩ "g1"
    (by decide)).2.1 "oops" (by decide)

/-- C2: when the history entry at `(g, s)` exists, `restoreGame(g, s)`
followed by `getGame(g)` yields exactly the content that
`getGameVersion(g, s)` yields. -/
theorem restore_then_get_roundtrip (fs : FS) (g : String) (s : Nat)
    (c : FileContent) (h : lookupFile fs.history (historyFilename g s) = some c)
    (v : SerializedGame) :
    (getGame (restoreGame fs g s).1 g = .ok v ↔ getGameVersion fs g s = .ok v) := by
  unfold restoreGame
  rw [h]
  unfold getGame getGameVersion
  simp only
  rw [lookupFile_writeFile_same, h]
  cases c with
  | game gm => exact Iff.rfl
  | corrupt t => simp

/-- C2 witness: restoring save 1 of a concrete game makes `getGame` return
exactly what `getGameVersion` returns. -/
theorem restore_then_get_roundtrip_witness :
    (getGame (restoreGame ⟨[("g1.json", .corrupt "now")],
        [("g1-00001.json", .game ⟨"g1", 1, [⟨"p1"⟩], none⟩)]⟩ "g1" 1).1 "g1" =
          .ok ⟨"g1", 1, [⟨"p1"⟩], none⟩ ↔
      getGameVersion ⟨[("g1.json", .corrupt "now")],
        [("g1-00001.json", .game ⟨"g1", 1, [⟨"p1"⟩], none⟩)]⟩ "g1" 1 =
          .ok ⟨"g1", 1, [⟨"p1"⟩], none⟩) :=
  restore_then_get_roundtrip _ "g1" 1 (.game ⟨"g1", 1, [⟨"p1"⟩], none⟩)
    (by decide) _

/-- C6 counterexample: a history file present at `(g1, 7)` with unparsable
content still makes `getGameVersion` fail, and with the not-found
message, refuting that the message appears exactly when the entry is
absent and that a present entry yields data. -/
theorem getGameVersion_corrupt_misreported :
    lookupFile (FS.mk [] [("g1-00007.json", .corrupt "oops")]).history
        (historyFilename "g1" 7) = some (.corrupt "oops") ∧
    getGameVersion ⟨[], [("g1-00007.json", .corrupt "oops")]⟩ "g1" 7 =
      .error (.error "Game g1 not found at save_id 7") := by
  exact ⟨rfl, rfl⟩

/-- C6 amended: `getGameVersion(g, s)` fails with the message
`Game {g} not found at save_id {s}` exactly when the history entry at
`(g, s)` is absent or does not parse as a game; when a parseable entry is
present it is returned. -/
theorem getGameVersion_taxonomy (fs : FS) (g : String) (s : Nat) :
    (getGameVersion fs g s =
        .error (.error ("Game " ++ g ++ " not found at save_id " ++ Nat.repr s)) ↔
      isValidEntry (lookupFile fs.history (historyFilename g s)) = false) ∧
    (∀ gm, lookupFile fs.history (historyFilename g s) = some (.game gm) →
      getGameVersion fs g s = .ok gm) := by
  unfold getGameVersion
  rcases hl : lookupFile fs.history (historyFilename g s) with _ | c
  · simp [isValidEntry]
  · cases c with
    | game gm => simp [isValidEntry]
    | corrupt t => simp [isValidEntry]

/-- C6 amended witness: on a concrete store the taxonomy applies: a
parseable entry at `(g1, 3)` is returned. -/
theorem getGameVersion_taxonomy_witness :
    getGameVersion ⟨[], [("g1-00003.json", .game ⟨"g1", 3, [], none⟩)]⟩ "g1" 3 =
      .ok ⟨"g1", 3, [], none⟩ :=
  (getGameVersion_taxonomy ⟨[], [("g1-00003.json", .game ⟨"g1", 3, [], none⟩)]⟩
    "g1" 3).2 ⟨"g1", 3, [], none⟩ (by decide)

/-- C5 counterexample: a game whose save-id-0 history file exists but whose
current snapshot file is absent makes `getPlayerCount` fail, although the
claim requires it to succeed with the player count. -/
theorem getPlayerCount_needs_snapshot :
    lookupFile (FS.mk []
        [("g1-00000.json", .game ⟨"g1", 0, [⟨"p1"⟩, ⟨"p2"⟩], none⟩)]).history
        (historyFilename "g1" 0) =
      some (.game ⟨"g1", 0, [⟨"p1"⟩, ⟨"p2"⟩], none⟩) ∧
    getPlayerCount isGameIdM
        ⟨[], [("g1-00000.json", .game ⟨"g1", 0, [⟨"p1"⟩, ⟨"p2"⟩], none⟩)]⟩ "g1" =
      .error (.error "g1 not found") := by
  exact ⟨rfl, rfl⟩

/-- C5 amended: `getPlayerCount(g)` succeeds with the length of the
save-id-0 entry's player list when `g` is listed among the recognized
snapshot files **and** the save-id-0 history entry exists (and parses);
it fails with the not-found error when `g` is not listed or the save-id-0
history file is absent. -/
theorem getPlayerCount_taxonomy (isG : String → Bool) (fs : FS) (g : String) :
    (∀ gm, g ∈ getGameIds isG fs →
      lookupFile fs.history (historyFilename g 0) = some (.game gm) →
      getPlayerCount isG fs g = .ok gm.players.length) ∧
    (g ∉ getGameIds isG fs ∨ lookupFile fs.history (historyFilename g 0) = none →
      getPlayerCount isG fs g = .error (.error (g ++ " not found"))) := by
  constructor
  · intro gm hmem hlook
    unfold getPlayerCount
    have hfind : ((getGameIds isG fs).find? (fun gId =>
        gId == g && (lookupFile fs.history (historyFilename g 0)).isSome)).isSome := by
      rw [List.find?_isSome]
      exact ⟨g, hmem, by simp [hlook]⟩
    rcases hf : (getGameIds isG fs).find? (fun gId =>
        gId == g && (lookupFile fs.history (historyFilename g 0)).isSome) with _ | x
    · rw [hf] at hfind
      simp at hfind
    · rw [hlook]
  · intro hcase
    unfold getPlayerCount
    have hnone : (getGameIds isG fs).find? (fun gId =>
        gId == g && (lookupFile fs.history (historyFilename g 0)).isSome) = none := by
      rw [List.find?_eq_none]
      intro x hx
      rcases hcase with hnot | hmiss
      · have : ¬(x == g) = true := fun hb => hnot ((eq_of_beq hb) ▸ hx)
        simp [this]
      · simp [hmiss]
    rw [hnone]

/-- C5 amended witness: with both the recognized snapshot file and the
save-id-0 entry present, the player count of the save-id-0 entry is
returned. -/
theorem getPlayerCount_taxonomy_witness :
    getPlayerCount isGameIdM
      ⟨[("g1.json", .game ⟨"g1", 4, [⟨"p1"⟩], none⟩)],
       [("g1-00000.json", .game ⟨"g1", 0, [⟨"p1"⟩, ⟨"p2"⟩], none⟩)]⟩ "g1" =
      .ok 2 :=
  (getPlayerCount_taxonomy isGameIdM
    ⟨[("g1.json", .game ⟨"g1", 4, [⟨"p1"⟩], none⟩)],
     [("g1-00000.json", .game ⟨"g1", 0, [⟨"p1"⟩, ⟨"p2"⟩], none⟩)]⟩ "g1").1
    ⟨"g1", 0, [⟨"p1"⟩, ⟨"p2"⟩], none⟩ (by decide) (by decide)


/-! ### Shape of history file names -/

/-- The padded digit values of a save id: leading zeros up to width 5,
then the decimal digits. -/
def padVals (s : Nat) : List Nat :=
  List.replicate (5 - (decDigits s).length) 0 ++ decDigits s

/-- The characters of a padded save id. -/
def padList (s : Nat) : List Char :=
  (padVals s).map Nat.digitChar

theorem padStart5_mk (l : List Char) :
    padStart5 ⟨l⟩ = ⟨List.replicate (5 - l.length) '0' ++ l⟩ := by
  unfold padStart5
  by_cases h : 5 ≤ String.length ⟨l⟩
  · have hlen : l.length = String.length ⟨l⟩ := rfl
    have h0 : 5 - l.length = 0 := by omega
    rw [if_pos h, h0]
    rfl
  · rw [if_neg h]
    rfl

theorem padList_eq (s : Nat) : padStart5 (Nat.repr s) = ⟨padList s⟩ := by
  rw [repr_eq_decDigits, padStart5_mk]
  unfold padList padVals
  rw [List.map_append, List.map_replicate, List.length_map]
  rfl

theorem historyFilename_data (g : String) (s : Nat) :
    (historyFilename g s).data =
      g.data ++ '-' :: (padList s ++ ['.', 'j', 's', 'o', 'n']) := by
  show (g ++ "-" ++ padStart5 (Nat.repr s) ++ ".json").data = _
  rw [padList_eq]
  simp [String.data_append]

theorem padVals_le9 (s : Nat) : ∀ d ∈ padVals s, d ≤ 9 := by
  intro d hd
  rcases List.mem_append.mp hd with h | h
  · have := List.eq_of_mem_replicate h
    omega
  · exact decDigits_le9 s d h

theorem natVal_padVals (s : Nat) : natVal (padVals s) = s := by
  unfold padVals
  rw [natVal_replicate_zero, natVal_decDigits]

theorem padVals_length (s : Nat) (h : s < 100000) : (padVals s).length = 5 := by
  have hle : (decDigits s).length ≤ 5 := decDigits_length_le 5 s (by omega) h
  unfold padVals
  rw [List.length_append, List.length_replicate]
  omega

theorem padList_no_dash (s : Nat) : '-' ∉ padList s := by
  intro hmem
  obtain ⟨d, hd, heq⟩ := List.mem_map.mp hmem
  have h9 := padVals_le9 s d hd
  exact isDigit_ne_dash (digitChar_isDigit h9) heq

theorem historyTail_no_dash (s : Nat) :
    '-' ∉ padList s ++ ['.', 'j', 's', 'o', 'n'] := by
  intro hmem
  rcases List.mem_append.mp hmem with h | h
  · exact padList_no_dash s h
  · simp at h

theorem append_dash_inj : ∀ (a c : List Char) {b d : List Char},
    '-' ∉ b → '-' ∉ d → a ++ '-' :: b = c ++ '-' :: d → a = c ∧ b = d := by
  intro a
  induction a with
  | nil =>
    intro c b d hb hd h
    cases c with
    | nil =>
      refine ⟨rfl, ?_⟩
      injection h
    | cons c0 c' =>
      rw [List.nil_append, List.cons_append] at h
      injection h with h1 h2
      exfalso
      apply hb
      rw [h2]
      exact List.mem_append.mpr (Or.inr (by simp))
  | cons a0 a' ih =>
    intro c b d hb hd h
    cases c with
    | nil =>
      rw [List.nil_append, List.cons_append] at h
      injection h with h1 h2
      exfalso
      apply hd
      rw [← h2]
      exact List.mem_append.mpr (Or.inr (by simp))
    | cons c0 c' =>
      rw [List.cons_append, List.cons_append] at h
      injection h with h1 h2
      obtain ⟨hac, hbd⟩ := ih c' hb hd h2
      exact ⟨by rw [h1, hac], hbd⟩

theorem map_digitChar_inj : ∀ (v w : List Nat), (∀ d ∈ v, d ≤ 9) →
    (∀ d ∈ w, d ≤ 9) → v.map Nat.digitChar = w.map Nat.digitChar → v = w := by
  intro v
  induction v with
  | nil =>
    intro w _ _ h
    cases w with
    | nil => rfl
    | cons _ _ => exact absurd h (by simp)
  | cons d r ih =>
    intro w hv hw h
    cases w with
    | nil => exact absurd h (by simp)
    | cons e q =>
      rw [List.map_cons, List.map_cons] at h
      injection h with h1 h2
      have hde : d = e :=
        digitChar_inj (hv d (by simp)) (hw e (by simp)) h1
      rw [hde, ih q (fun x hx => hv x (by simp [hx]))
        (fun x hx => hw x (by simp [hx])) h2]

/-- C7 counterexample: save ids 99999 < 100000 of the same game produce
history paths in the *opposite* lexicographic order, refuting the claimed
order-preservation for all save ids. -/
theorem historyFilename_lex_fails :
    (99999 : Nat) < 100000 ∧
    ¬(historyFilename "g1" 99999 < historyFilename "g1" 100000) := by
  constructor
  · decide
  · rw [String.lt_iff_toList_lt]
    decide

/-- Lexicographic order is preserved under a common left context. -/
theorem lex_append_left (p : List Char) {x y : List Char}
    (h : List.Lex (· < ·) x y) : List.Lex (· < ·) (p ++ x) (p ++ y) := by
  induction p with
  | nil => exact h
  | cons c t ih => exact List.Lex.cons ih

/-- Equal-length digit strings compare lexicographically as their values,
whatever suffixes follow. -/
theorem digit_lists_lex : ∀ (v w : List Nat) (t u : List Char),
    v.length = w.length → (∀ d ∈ v, d ≤ 9) → (∀ d ∈ w, d ≤ 9) →
    natVal v < natVal w →
    List.Lex (· < ·) (v.map Nat.digitChar ++ t) (w.map Nat.digitChar ++ u) := by
  intro v
  induction v with
  | nil =>
    intro w t u hlen _ _ hval
    cases w with
    | nil => simp [natVal] at hval
    | cons _ _ => simp at hlen
  | cons d r ih =>
    intro w t u hlen hv hw hval
    cases w with
    | nil => simp at hlen
    | cons e q =>
      simp only [List.length_cons] at hlen
      rw [natVal_cons, natVal_cons] at hval
      have hrq : r.length = q.length := by omega
      rcases Nat.lt_trichotomy d e with hde | hde | hde
      · exact List.Lex.rel (digitChar_lt hde (hw e (by simp)))
      · subst hde
        have hval' : natVal r < natVal q := by
          rw [hrq] at hval
          omega
        exact List.Lex.cons (ih q t u hrq
          (fun x hx => hv x (by simp [hx]))
          (fun x hx => hw x (by simp [hx])) hval')
      · exfalso
        have hr : natVal r < 10 ^ r.length :=
          natVal_lt r fun x hx => hv x (by simp [hx])
        have hq : natVal q < 10 ^ q.length :=
          natVal_lt q fun x hx => hw x (by simp [hx])
        rw [hrq] at hr hval
        have hpow : 0 < 10 ^ q.length := Nat.pos_pow_of_pos _ (by omega)
        nlinarith

/-- C7 amended: distinct `(gameId, saveId)` pairs never produce the same
history path; and for save ids below 100000 (where the width-5 padding is
exact) the numeric order of save ids agrees with the lexicographic order
of paths. -/
theorem historyFilename_inj_and_lex :
    (∀ (g1 : String) (s1 : Nat) (g2 : String) (s2 : Nat),
      (g1, s1) ≠ (g2, s2) → historyFilename g1 s1 ≠ historyFilename g2 s2) ∧
    (∀ (g : String) (a b : Nat), a < b → b < 100000 →
      historyFilename g a < historyFilename g b) := by
  constructor
  · intro g1 s1 g2 s2 hne heq
    apply hne
    have hdata := congrArg String.data heq
    rw [historyFilename_data, historyFilename_data] at hdata
    obtain ⟨hg, hb⟩ := append_dash_inj g1.data g2.data
      (historyTail_no_dash s1) (historyTail_no_dash s2) hdata
    have hgs : g1 = g2 := String.ext hg
    have hpad : padList s1 = padList s2 := List.append_left_inj _ |>.mp hb
    have hvals : padVals s1 = padVals s2 :=
      map_digitChar_inj _ _ (padVals_le9 s1) (padVals_le9 s2) hpad
    have hs : s1 = s2 := by
      have := congrArg natVal hvals
      rwa [natVal_padVals, natVal_padVals] at this
    rw [hgs, hs]
  · intro g a b hab hb
    rw [String.lt_iff_toList_lt]
    show List.Lex (· < ·) (historyFilename g a).data (historyFilename g b).data
    rw [historyFilename_data, historyFilename_data]
    have ha5 : (padVals a).length = 5 := padVals_length a (by omega)
    have hb5 : (padVals b).length = 5 := padVals_length b hb
    have hlex : List.Lex (· < ·)
        (padList a ++ ['.', 'j', 's', 'o', 'n'])
        (padList b ++ ['.', 'j', 's', 'o', 'n']) := by
      unfold padList
      apply digit_lists_lex _ _ _ _ (by rw [ha5, hb5]) (padVals_le9 a)
        (padVals_le9 b)
      rw [natVal_padVals, natVal_padVals]
      exact hab
    have := lex_append_left (g.data ++ ['-']) hlex
    simpa using this

/-- C7 amended witness: two concrete distinct pairs give distinct paths and
the order below the padding bound is preserved. -/
theorem historyFilename_inj_and_lex_witness :
    historyFilename "g1" 1 ≠ historyFilename "g2" 1 ∧
    historyFilename "g1" 3 < historyFilename "g1" 12 :=
  ⟨historyFilename_inj_and_lex.1 "g1" 1 "g2" 1 (by decide),
   historyFilename_inj_and_lex.2 "g1" 3 12 (by decide) (by decide)⟩


/-! ### Regular-expression analysis -/

theorem maxN_spec : ∀ {l : List Nat}, l ≠ [] →
    ∃ m, maxN l = some m ∧ m ∈ l ∧ ∀ x ∈ l, x ≤ m := by
  intro l
  induction l with
  | nil => intro h; exact absurd rfl h
  | cons x xs ih =>
    intro _
    rcases hmx : maxN xs with _ | m
    · have hxs : xs = [] := by
        cases xs with
        | nil => rfl
        | cons y ys =>
          unfold maxN at hmx
          rcases h : maxN ys with _ | k <;> rw [h] at hmx <;> cases hmx
      subst hxs
      refine ⟨x, ?_, by simp, by simp⟩
      unfold maxN
      rfl
    · have hne : xs ≠ [] := by
        intro h
        subst h
        cases hmx
      obtain ⟨m', hm', hmem, hub⟩ := ih hne
      have hmm : m' = m := by
        rw [hm'] at hmx
        injection hmx
      subst hmm
      refine ⟨max x m', ?_, ?_, ?_⟩
      · unfold maxN
        rw [hmx]
      · rcases Nat.le_total x m' with h | h
        · rw [Nat.max_eq_right h]
          exact List.mem_cons_of_mem _ hmem
        · rw [Nat.max_eq_left h]
          exact List.mem_cons_self _ _
      · intro z hz
        rcases List.mem_cons.mp hz with rfl | hz'
        · exact Nat.le_max_left _ _
        · exact Nat.le_trans (hub z hz') (Nat.le_max_right _ _)

theorem maxN_eq_of {l : List Nat} {x : Nat} (hx : x ∈ l)
    (hub : ∀ y ∈ l, y ≤ x) : maxN l = some x := by
  obtain ⟨m, hm, hmem, hub'⟩ := maxN_spec (List.ne_nil_of_mem hx)
  have : m = x := Nat.le_antisymm (hub m hmem) (hub' x hx)
  rw [hm, this]

theorem mem_jsonPositions {l : List Char} {j : Nat} :
    j ∈ jsonPositions l ↔ j < l.length ∧ (l.drop j).take 4 = ['j', 's', 'o', 'n'] := by
  unfold jsonPositions
  rw [List.mem_filter, List.mem_range]
  simp only [decide_eq_true_eq]

theorem jsonPositions_bound {l : List Char} {j : Nat} (h : j ∈ jsonPositions l) :
    j + 4 ≤ l.length := by
  rw [mem_jsonPositions] at h
  have hl := congrArg List.length h.2
  simp only [List.length_take, List.length_drop, List.length_cons,
    List.length_nil] at hl
  omega

theorem filename_data (g : String) :
    (filename g).data = g.data ++ ['.', 'j', 's', 'o', 'n'] := by
  show (g ++ ".json").data = _
  rw [String.data_append]

theorem jsMatch1_filename (g : String) : jsMatch1 (filename g) = some g := by
  unfold jsMatch1
  rw [filename_data]
  have hsplit : g.data ++ ['.', 'j', 's', 'o', 'n'] =
      (g.data ++ ['.']) ++ ['j', 's', 'o', 'n'] := by simp
  have hmem : g.data.length + 1 ∈
      (jsonPositions (g.data ++ ['.', 'j', 's', 'o', 'n'])).filter
        (fun j => decide (1 ≤ j)) := by
    rw [List.mem_filter]
    refine ⟨?_, by simp⟩
    rw [mem_jsonPositions]
    constructor
    · simp
    · rw [hsplit, List.drop_left' (by simp)]
      rfl
  have hub : ∀ x ∈ (jsonPositions (g.data ++ ['.', 'j', 's', 'o', 'n'])).filter
      (fun j => decide (1 ≤ j)), x ≤ g.data.length + 1 := by
    intro x hx
    have hb := jsonPositions_bound (List.mem_filter.mp hx).1
    simp only [List.length_append, List.length_cons, List.length_nil] at hb
    omega
  rw [maxN_eq_of hmem hub]
  show some ⟨(g.data ++ ['.', 'j', 's', 'o', 'n']).take (g.data.length + 1 - 1)⟩ = some g
  rw [Nat.add_sub_cancel, List.take_left]

theorem asGameId_filename (isG : String → Bool) (g : String) (h : isG g = true) :
    asGameId isG (filename g) = some g := by
  unfold asGameId
  rw [jsMatch1_filename]
  show (if isG g then some g else none) = some g
  rw [h]
  rfl

/-- Every recognized database entry with parseable content contributes its
ledger entry to a successful `participantsGo` traversal. -/
theorem participantsGo_mem (isG : String → Bool) (fs : FS) (g : String)
    (gm : SerializedGame)
    (hnd : (fs.db.map Prod.fst).Nodup)
    (hisG : isG g = true)
    (hmem : (filename g, FileContent.game gm) ∈ fs.db) :
    ∀ (sub : List (String × FileContent)) (entries : List GameIdLedger),
      (filename g, FileContent.game gm) ∈ sub →
      participantsGo isG fs sub = .ok entries →
      (⟨g, gm.players.map Player.id ++
          (match gm.spectatorId with
           | some sid => if sid = "" then [] else [sid]
           | none => [])⟩ : GameIdLedger) ∈ entries := by
  intro sub
  induction sub with
  | nil => intro entries h; cases h
  | cons e rest ih =>
    intro entries hsub hok
    have hlook : lookupFile fs.db (filename g) = some (.game gm) :=
      lookupFile_of_mem hnd hmem
    rcases List.mem_cons.mp hsub with heq | hrest
    · subst heq
      unfold participantsGo at hok
      rw [asGameId_filename isG g hisG] at hok
      simp only at hok
      rw [hlook] at hok
      rcases hrec : participantsGo isG fs rest with err | acc
      · rw [hrec] at hok
        cases hok
      · rw [hrec] at hok
        injection hok with hok
        rw [← hok]
        exact List.mem_cons_self _ _
    · unfold participantsGo at hok
      rcases hgid : asGameId isG e.1 with _ | gid
      · rw [hgid] at hok
        exact ih entries hrest hok
      · rw [hgid] at hok
        simp only at hok
        rcases hl : lookupFile fs.db (filename gid) with _ | c
        · rw [hl] at hok
          cases hok
        · rw [hl] at hok
          cases c with
          | corrupt t => cases hok
          | game gm' =>
            rcases hrec : participantsGo isG fs rest with err | acc
            · rw [hrec] at hok
              cases hok
            · rw [hrec] at hok
              injection hok with hok
              rw [← hok]
              exact List.mem_cons_of_mem _ (ih acc hrest hrec)

/-- C9: for every game whose current snapshot is present, recognized and
parseable, a successful `getParticipants` contains that ledger entry of that game
entry: the player ids in stored order followed, last, by the spectator id,
which is omitted exactly when absent or falsy (the empty string). -/
theorem getParticipants_entry (isG : String → Bool) (fs : FS) (g : String)
    (gm : SerializedGame) (entries : List GameIdLedger)
    (hnd : (fs.db.map Prod.fst).Nodup)
    (hisG : isG g = true)
    (hmem : (filename g, FileContent.game gm) ∈ fs.db)
    (hok : getParticipants isG fs = .ok entries) :
    (⟨g, gm.players.map Player.id ++
        (match gm.spectatorId with
         | some sid => if sid = "" then [] else [sid]
         | none => [])⟩ : GameIdLedger) ∈ entries :=
  participantsGo_mem isG fs g gm hnd hisG hmem fs.db entries hmem hok

/-- C9 witness: a concrete store with two players and a spectator produces
the ledger entry with the spectator id last. -/
theorem getParticipants_entry_witness :
    (⟨"g1", ["p1", "p2", "s7"]⟩ : GameIdLedger) ∈
      [(⟨"g1", ["p1", "p2", "s7"]⟩ : GameIdLedger)] := by
  have h := getParticipants_entry isGameIdM
    ⟨[("g1.json", .game ⟨"g1", 2, [⟨"p1"⟩, ⟨"p2"⟩], some "s7"⟩)], []⟩ "g1"
    ⟨"g1", 2, [⟨"p1"⟩, ⟨"p2"⟩], some "s7"⟩
    [⟨"g1", ["p1", "p2", "s7"]⟩]
    (by decide) (by decide) (by decide) rfl
  simp only at h
  exact h


/-! ### Well-formed history file names -/

/-- A well-formed history file name: `{gid}-{ds}.json` for a non-empty
dash-free game id and a non-empty digit string, the shape produced by the
history-path resolver of the store itself. -/
def WFName (name : String) : Prop :=
  ∃ gid ds : List Char,
    name.data = gid ++ '-' :: (ds ++ ['.', 'j', 's', 'o', 'n']) ∧
    gid ≠ [] ∧ ds ≠ [] ∧ '-' ∉ gid ∧ ∀ c ∈ ds, c.isDigit = true

theorem digits_no_dash {D : List Char} (hD : ∀ c ∈ D, c.isDigit = true) :
    '-' ∉ D ++ ['.', 'j', 's', 'o', 'n'] := by
  intro hmem
  rcases List.mem_append.mp hmem with h | h
  · exact isDigit_ne_dash (hD _ h) rfl
  · simp at h

theorem wf_assoc (G D : List Char) :
    G ++ '-' :: (D ++ ['.', 'j', 's', 'o', 'n']) =
    (G ++ ['-']) ++ (D ++ ['.', 'j', 's', 'o', 'n']) := by
  simp

theorem wf_assoc4 (G D : List Char) :
    G ++ '-' :: (D ++ ['.', 'j', 's', 'o', 'n']) =
    ((G ++ ['-']) ++ (D ++ ['.'])) ++ ['j', 's', 'o', 'n'] := by
  simp

theorem wf_drop (G D : List Char) :
    (G ++ '-' :: (D ++ ['.', 'j', 's', 'o', 'n'])).drop (G.length + 1) =
      D ++ ['.', 'j', 's', 'o', 'n'] := by
  rw [wf_assoc, List.drop_left' (by simp)]

theorem wf_take (G D : List Char) :
    (G ++ '-' :: (D ++ ['.', 'j', 's', 'o', 'n'])).take (G.length + 1) =
      G ++ ['-'] := by
  rw [wf_assoc, List.take_left' (by simp)]

theorem wf_length (G D : List Char) :
    (G ++ '-' :: (D ++ ['.', 'j', 's', 'o', 'n'])).length =
      G.length + D.length + 6 := by
  simp only [List.length_append, List.length_cons, List.length_nil]
  omega

theorem wf_get_dash (G R : List Char) :
    (G ++ '-' :: R).get? G.length = some '-' := by
  rw [List.get?_append_right (Nat.le_refl _), Nat.sub_self]
  rfl

theorem wf_dash_unique {G D : List Char} (hG : '-' ∉ G)
    (hD : ∀ c ∈ D, c.isDigit = true) {i : Nat}
    (h : (G ++ '-' :: (D ++ ['.', 'j', 's', 'o', 'n'])).get? i = some '-') :
    i = G.length := by
  rcases Nat.lt_trichotomy i G.length with hi | hi | hi
  · rw [List.get?_append hi] at h
    exact absurd (List.get?_mem h) hG
  · exact hi
  · exfalso
    rw [List.get?_append_right (by omega)] at h
    rcases hk : i - G.length with _ | k
    · omega
    · rw [hk, List.get?_cons_succ] at h
      exact digits_no_dash hD (List.get?_mem h)

theorem wf_json_mem (G D : List Char) :
    G.length + D.length + 2 ∈
      jsonPositions (G ++ '-' :: (D ++ ['.', 'j', 's', 'o', 'n'])) := by
  rw [mem_jsonPositions]
  constructor
  · rw [wf_length]
    omega
  · rw [wf_assoc4, List.drop_left' (by simp; omega)]
    rfl

theorem wf_json_high {G D : List Char} (hD : ∀ c ∈ D, c.isDigit = true)
    {j : Nat}
    (hj : j ∈ jsonPositions (G ++ '-' :: (D ++ ['.', 'j', 's', 'o', 'n'])))
    (hge : G.length + 2 ≤ j) : j = G.length + D.length + 2 := by
  have hbound := jsonPositions_bound hj
  rw [wf_length] at hbound
  rw [mem_jsonPositions] at hj
  obtain ⟨hlt, htake⟩ := hj
  have hq1 : 1 ≤ j - (G.length + 1) := by omega
  have hqle : j - (G.length + 1) ≤ D.length + 1 := by omega
  have hdrop : (G ++ '-' :: (D ++ ['.', 'j', 's', 'o', 'n'])).drop j =
      (D ++ ['.', 'j', 's', 'o', 'n']).drop (j - (G.length + 1)) := by
    have hj' : j = (G.length + 1) + (j - (G.length + 1)) := by omega
    rw [hj', ← List.drop_drop, wf_drop]
    congr 1
    omega
  rw [hdrop] at htake
  rcases Nat.lt_trichotomy (j - (G.length + 1)) D.length with hq | hq | hq
  · exfalso
    rw [List.drop_append_of_le_length (by omega)] at htake
    rcases hDq : D.drop (j - (G.length + 1)) with _ | ⟨d, t⟩
    · have := congrArg List.length hDq
      simp only [List.length_drop, List.length_nil] at this
      omega
    · rw [hDq, List.cons_append] at htake
      have hd : d = 'j' := by
        have hh := congrArg List.head? htake
        simpa using hh
      have hdD : d ∈ D := List.mem_of_mem_drop (hDq ▸ List.mem_cons_self d t)
      exact isDigit_ne_j (hD d hdD) hd
  · exfalso
    rw [List.drop_append_of_le_length (by omega), hq, List.drop_length,
      List.nil_append] at htake
    cases htake
  · omega


theorem dash_eq_of_append : ∀ (a : List Char) {t : List Char} (c : List Char)
    {r : List Char}, '-' ∉ c → '-' ∉ r → a ++ '-' :: t = c ++ '-' :: r →
    a = c := by
  intro a
  induction a with
  | nil =>
    intro t c r hc _ h
    cases c with
    | nil => rfl
    | cons c0 c' =>
      rw [List.nil_append, List.cons_append] at h
      injection h with h1 _
      exact absurd (by rw [← h1]; exact List.mem_cons_self _ _ : '-' ∈ c0 :: c') hc
  | cons a0 a' ih =>
    intro t c r hc hr h
    cases c with
    | nil =>
      rw [List.nil_append, List.cons_append] at h
      injection h with _ h2
      exact absurd (h2 ▸ List.mem_append.mpr
        (Or.inr (List.mem_cons_self _ _)) : '-' ∈ r) hr
    | cons c0 c' =>
      rw [List.cons_append, List.cons_append] at h
      injection h with h1 h2
      have hc' : '-' ∉ c' := fun hm => hc (List.mem_cons_of_mem _ hm)
      rw [h1, ih c' hc' hr h2]

theorem jsMatch2_wf (name : String) {G D : List Char}
    (hl : name.data = G ++ '-' :: (D ++ ['.', 'j', 's', 'o', 'n']))
    (hG : '-' ∉ G) (hD : ∀ c ∈ D, c.isDigit = true) :
    jsMatch2 name = some ((⟨G⟩ : String), (⟨D⟩ : String)) := by
  have hdashmem : G.length ∈
      feasibleDashes (G ++ '-' :: (D ++ ['.', 'j', 's', 'o', 'n'])) := by
    unfold feasibleDashes
    rw [List.mem_filter, List.mem_range]
    refine ⟨by rw [wf_length]; omega, ?_⟩
    rw [Bool.and_eq_true]
    constructor
    · rw [decide_eq_true_eq]
      exact wf_get_dash G _
    · rw [List.any_eq_true]
      exact ⟨G.length + D.length + 2, wf_json_mem G D,
        by rw [decide_eq_true_eq]; omega⟩
  have hdashub : ∀ i ∈
      feasibleDashes (G ++ '-' :: (D ++ ['.', 'j', 's', 'o', 'n'])),
      i ≤ G.length := by
    intro i hi
    unfold feasibleDashes at hi
    rw [List.mem_filter] at hi
    have h2 := hi.2
    rw [Bool.and_eq_true, decide_eq_true_eq] at h2
    exact Nat.le_of_eq (wf_dash_unique hG hD h2.1)
  have hjmem : G.length + D.length + 2 ∈
      (jsonPositions (G ++ '-' :: (D ++ ['.', 'j', 's', 'o', 'n']))).filter
        (fun j => decide (G.length + 2 ≤ j)) := by
    rw [List.mem_filter]
    exact ⟨wf_json_mem G D, by rw [decide_eq_true_eq]; omega⟩
  have hjub : ∀ x ∈
      (jsonPositions (G ++ '-' :: (D ++ ['.', 'j', 's', 'o', 'n']))).filter
        (fun j => decide (G.length + 2 ≤ j)), x ≤ G.length + D.length + 2 := by
    intro x hx
    rw [List.mem_filter, decide_eq_true_eq] at hx
    exact Nat.le_of_eq (wf_json_high hD hx.1 hx.2)
  unfold jsMatch2
  rw [hl, maxN_eq_of hdashmem hdashub]
  show (match maxN
      ((jsonPositions (G ++ '-' :: (D ++ ['.', 'j', 's', 'o', 'n']))).filter
        (fun j => decide (G.length + 2 ≤ j))) with
    | none => none
    | some j =>
      some (⟨(G ++ '-' :: (D ++ ['.', 'j', 's', 'o', 'n'])).take G.length⟩,
        ⟨((G ++ '-' :: (D ++ ['.', 'j', 's', 'o', 'n'])).drop
            (G.length + 1)).take (j - G.length - 2)⟩)) =
    some ((⟨G⟩ : String), (⟨D⟩ : String))
  rw [maxN_eq_of hjmem hjub]
  show some (⟨(G ++ '-' :: (D ++ ['.', 'j', 's', 'o', 'n'])).take G.length⟩,
      ⟨((G ++ '-' :: (D ++ ['.', 'j', 's', 'o', 'n'])).drop
          (G.length + 1)).take (G.length + D.length + 2 - G.length - 2)⟩) =
    some ((⟨G⟩ : String), (⟨D⟩ : String))
  have harith : G.length + D.length + 2 - G.length - 2 = D.length := by omega
  rw [harith, wf_drop]
  have h1 : (G ++ '-' :: (D ++ ['.', 'j', 's', 'o', 'n'])).take G.length = G :=
    List.take_left G _
  have h2 : (D ++ ['.', 'j', 's', 'o', 'n']).take D.length = D :=
    List.take_left D _
  rw [h1, h2]

/-- Whether `name` is a history file of game `g` by shape: the
`{gameId}-{saveId}.json` pattern of the spec with a non-empty digit save id. -/
def ownedByB (g name : String) : Bool :=
  (name.data.take (g.data.length + 1) == g.data ++ ['-']) &&
  decide (6 ≤ (name.data.drop (g.data.length + 1)).length) &&
  ((name.data.drop (g.data.length + 1)).drop
      ((name.data.drop (g.data.length + 1)).length - 5) ==
    ['.', 'j', 's', 'o', 'n']) &&
  ((name.data.drop (g.data.length + 1)).take
      ((name.data.drop (g.data.length + 1)).length - 5)).all Char.isDigit

/-- The numeric save-id component of a history file of game `g`. -/
def specSaveId (g name : String) : Nat :=
  charsVal ((name.data.drop (g.data.length + 1)).take
    ((name.data.drop (g.data.length + 1)).length - 5))

theorem jsStartsWith_wf (g name : String) {G D : List Char}
    (hl : name.data = G ++ '-' :: (D ++ ['.', 'j', 's', 'o', 'n']))
    (hG : '-' ∉ G) (hD : ∀ c ∈ D, c.isDigit = true) :
    jsStartsWith name (g ++ "-") = true ↔ g.data = G := by
  unfold jsStartsWith
  rw [String.data_append, show ("-" : String).data = ['-'] from rfl,
    List.isPrefixOf_iff_prefix, hl]
  constructor
  · rintro ⟨t, ht⟩
    rw [List.append_assoc] at ht
    exact dash_eq_of_append g.data G hG (digits_no_dash hD) ht
  · intro hg
    refine ⟨D ++ ['.', 'j', 's', 'o', 'n'], ?_⟩
    rw [hg, ← wf_assoc]

theorem ownedByB_wf (g name : String) {G D : List Char}
    (hl : name.data = G ++ '-' :: (D ++ ['.', 'j', 's', 'o', 'n']))
    (hDne : D ≠ []) (hG : '-' ∉ G) (hD : ∀ c ∈ D, c.isDigit = true) :
    ownedByB g name = true ↔ g.data = G := by
  unfold ownedByB
  rw [hl]
  constructor
  · intro h
    rw [Bool.and_eq_true, Bool.and_eq_true, Bool.and_eq_true] at h
    have h1 := h.1.1.1
    have heq : (G ++ '-' :: (D ++ ['.', 'j', 's', 'o', 'n'])).take
        (g.data.length + 1) = g.data ++ ['-'] := eq_of_beq h1
    have hpre : (g.data ++ ['-']) <+:
        (G ++ '-' :: (D ++ ['.', 'j', 's', 'o', 'n'])) :=
      heq ▸ List.take_prefix _ _
    obtain ⟨t, ht⟩ := hpre
    rw [List.append_assoc] at ht
    exact dash_eq_of_append g.data G hG (digits_no_dash hD) ht
  · intro hg
    have hlen : g.data.length = G.length := by rw [hg]
    rw [hlen, wf_take, wf_drop, hg]
    have hR : (D ++ ['.', 'j', 's', 'o', 'n']).length = D.length + 5 := by
      simp
    rw [hR]
    have h5 : D.length + 5 - 5 = D.length := by omega
    rw [h5, List.drop_left' rfl, List.take_left' rfl]
    have hDpos : 1 ≤ D.length := by
      cases D with
      | nil => exact absurd rfl hDne
      | cons _ _ => simp
    simp [List.all_eq_true.mpr hD]
    omega

theorem specSaveId_wf (g name : String) {G D : List Char}
    (hl : name.data = G ++ '-' :: (D ++ ['.', 'j', 's', 'o', 'n']))
    (hg : g.data = G) : specSaveId g name = charsVal D := by
  unfold specSaveId
  have hlen : g.data.length = G.length := by rw [hg]
  rw [hl, hlen, wf_drop]
  have hR : (D ++ ['.', 'j', 's', 'o', 'n']).length = D.length + 5 := by simp
  rw [hR]
  have h5 : D.length + 5 - 5 = D.length := by omega
  rw [h5, List.take_left' rfl]

theorem getSaveIds_elem (g name : String) (h : WFName name) :
    (if jsStartsWith name (g ++ "-") then
       match jsMatch2 name with
       | some m => some (jsNumber m.2)
       | none => none
     else none) =
    (if ownedByB g name then some (some (specSaveId g name)) else none) := by
  obtain ⟨G, D, hl, hGne, hDne, hG, hD⟩ := h
  by_cases hgg : g.data = G
  · rw [if_pos ((jsStartsWith_wf g name hl hG hD).mpr hgg),
      if_pos ((ownedByB_wf g name hl hDne hG hD).mpr hgg),
      jsMatch2_wf name hl hG hD, specSaveId_wf g name hl hgg]
    show some (jsNumber ⟨D⟩) = some (some (charsVal D))
    unfold jsNumber
    show some (if D = [] then some 0
        else if D.all Char.isDigit then some (charsVal D) else none) =
      some (some (charsVal D))
    rw [if_neg hDne, if_pos (List.all_eq_true.mpr hD)]
  · rw [if_neg (fun hb => hgg ((jsStartsWith_wf g name hl hG hD).mp hb)),
      if_neg (fun hb => hgg ((ownedByB_wf g name hl hDne hG hD).mp hb))]

/-- C4: when every file in the history folder is well-formed
(`{gid}-{digits}.json` with a dash-free game id, the shape the store
itself writes), `getSaveIds(g)` returns exactly the numeric save-id
components of the history files of game `g`, one element per file of `g`
in directory order and none from any other game — including games whose id
has `g` as a proper prefix. -/
theorem getSaveIds_exact (fs : FS) (g : String)
    (hwf : ∀ name ∈ fs.history.map Prod.fst, WFName name) :
    getSaveIds fs g = (fs.history.map Prod.fst).filterMap
      (fun name =>
        if ownedByB g name then some (some (specSaveId g name)) else none) := by
  unfold getSaveIds
  rw [List.filterMap_map]
  apply List.filterMap_congr
  intro e he
  exact getSaveIds_elem g e.1 (hwf e.1 (List.mem_map.mpr ⟨e, he, rfl⟩))

/-- C4 witness: a history folder holding two files of `g1` and one file of
`g12` (a game id with `g1` as a proper prefix). -/
theorem getSaveIds_exact_witness :
    getSaveIds ⟨[], [("g1-00000.json", .corrupt "a"),
        ("g1-00001.json", .corrupt "b"),
        ("g12-00005.json", .corrupt "c")]⟩ "g1" =
      ([("g1-00000.json", FileContent.corrupt "a"),
        ("g1-00001.json", FileContent.corrupt "b"),
        ("g12-00005.json", FileContent.corrupt "c")].map Prod.fst).filterMap
        (fun name =>
          if ownedByB "g1" name then some (some (specSaveId "g1" name))
          else none) :=
  getSaveIds_exact _ "g1" (by
    intro name hname
    simp only [List.map_cons, List.map_nil, List.mem_cons,
      List.not_mem_nil, or_false] at hname
    rcases hname with rfl | rfl | rfl
    · exact ⟨['g', '1'], ['0', '0', '0', '0', '0'], by decide, by decide,
        by decide, by decide, by decide⟩
    · exact ⟨['g', '1'], ['0', '0', '0', '0', '1'], by decide, by decide,
        by decide, by decide, by decide⟩
    · exact ⟨['g', '1', '2'], ['0', '0', '0', '0', '5'], by decide, by decide,
        by decide, by decide, by decide⟩)

end LocalFilesystem
